import Mathlib

/-!
Verification development for the `git_repo_explorer` repository
(`repo_handler.py`, `main.py`, `gui.py`, `file_writer.py`).

Each definition below is a shallow embedding of a Python function of the
repository; the doc comment of each definition names the source function
it translates.  External collaborators (the `charset_normalizer` detector,
Python's codec machinery, the Git client, the filesystem) are modelled as
explicit parameters or as explicit state records.
-/

set_option maxHeartbeats 1000000

/-- Model of a regular file as seen by the code: the stat size (what
`os.path.getsize` reports), the raw bytes (what `open(..., "rb").read`
yields), and two flags saying whether stat-ing respectively opening the
file succeeds (a `False` flag models `OSError`/`IOError` being raised by
the corresponding call, e.g. the file vanished or permissions denied). -/
structure FileData where
  size : Nat
  bytes : List Nat
  statOk : Bool
  openOk : Bool

/-- A filesystem restricted to the repository directory: maps a path to
the file stored there, `none` when no such file exists. -/
def FS : Type := String → Option FileData

/-- Result of the external `charset_normalizer.detect` call: the detected
encoding name (or `None`) and the reported confidence.  The legacy
`detect` API returns `confidence = None` when no charset matched at all,
which we model with an `Option` on the confidence. -/
structure DetectResult where
  encoding : Option String
  confidence : Option ℚ

/-- The external statistical charset detector, a parameter of the model. -/
def Detector : Type := List Nat → DetectResult

/-- The external Python codec machinery: given an encoding name and raw
bytes, return the decoded text, or `none` when decoding raises
`UnicodeDecodeError`. -/
def Decoder : Type := String → List Nat → Option String

/-- Python exceptions that the modelled code can raise or (per the spec's
error taxonomy) is claimed to raise.  `cloneFailed` is the wrapper type
named by the spec; the source never defines or raises it. -/
inductive PyErr where
  | osError
  | typeError
  | gitCommandError (msg : String)
  | attributeError (attr : String)
  | cloneFailed (msg : String)
deriving DecidableEq, Repr

/-- The binary-marker string returned by `RepositoryHandler.get_file_content`
and `RepositoryHandler._read_text_file` (repo_handler.py lines 278, 287, 317). -/
def binaryMarker : String := "Binary file - contents omitted"

/-- Model of `os.path.getsize(full_path)`: raises `OSError` when the file
is missing or stat fails, otherwise reports the stat size. -/
def getsize (fs : FS) (p : String) : Except PyErr Nat :=
  match fs p with
  | none => .error .osError
  | some fd => if fd.statOk then .ok fd.size else .error .osError

/-- Model of `open(full_path, "rb")` followed by reading: raises when the
file is missing or opening fails, otherwise yields the raw bytes. -/
def openBytes (fs : FS) (p : String) : Except PyErr (List Nat) :=
  match fs p with
  | none => .error .osError
  | some fd => if fd.openOk then .ok fd.bytes else .error .osError

/-- Translation of `RepositoryHandler._detect_encoding` (repo_handler.py
lines 289-301).  The file is opened (NOT inside any try/except: an I/O
failure here propagates), its stat size is read, a sample of
`min(file_size, 64*1024)` bytes is read, and `charset_normalizer.detect`
is consulted.  The source then evaluates
`result["encoding"] if result["confidence"] > 0.95 else None`; comparing a
`None` confidence with `0.95` raises `TypeError` in Python, which we model
faithfully. -/
def detect_encoding (fs : FS) (det : Detector) (p : String) :
    Except PyErr (Option String) := do
  let bytes ← openBytes fs p
  let file_size ← getsize fs p
  let sample := bytes.take (min file_size (64 * 1024))
  let result := det sample
  match result.confidence with
  | none => .error .typeError
  | some c => .ok (if (95 : ℚ) / 100 < c then result.encoding else none)

/-- Translation of `RepositoryHandler._read_text_file` (repo_handler.py
lines 303-317): open and decode the full file with the given encoding;
`UnicodeDecodeError` and `IOError` are caught and turned into the binary
marker, so this stage never raises. -/
def read_text_file (fs : FS) (dec : Decoder) (p : String) (encoding : String) :
    String :=
  match fs p with
  | none => binaryMarker
  | some fd =>
    if fd.openOk then
      match dec encoding fd.bytes with
      | some content => content
      | none => binaryMarker
    else binaryMarker

/-- Translation of `RepositoryHandler.get_file_content` (repo_handler.py
lines 270-287): stat the file; if larger than `1024 * 1024` bytes return
the binary marker without reading; otherwise run `_detect_encoding` and,
if an encoding was accepted, read and decode the full file via
`_read_text_file`; with no accepted encoding return the binary marker. -/
def get_file_content (fs : FS) (det : Detector) (dec : Decoder) (p : String) :
    Except PyErr String := do
  let file_size ← getsize fs p
  if 1024 * 1024 < file_size then
    return binaryMarker
  let encoding ← detect_encoding fs det p
  match encoding with
  | some e => return read_text_file fs dec p e
  | none => return binaryMarker

/-- Whether an `Except` computation finished without raising. -/
def exceptOk {ε α : Type} : Except ε α → Bool
  | .ok _ => true
  | .error _ => false

/-- Modelled from the spec: whether the file name carries one of the
well-known text extensions of the spec's stage-1 allow-list (spec section
4.4, stage 1).  No such list exists in the source. -/
def hasAllowedExtension (allowList : List String) (p : String) : Bool :=
  allowList.any (fun ext => List.isSuffixOf ext.data p.data)

/-- Modelled from the spec: stage 2 of the spec's content classifier
(spec section 4.4): read a bounded sample (up to 64 KiB), run charset
detection, accept the encoding only when identified with confidence above
the threshold; on acceptance decode the full content, degrading any
decode error to the binary marker; otherwise return the binary marker.
The spec demands this stage "degrade gracefully (never crash)", so it is
total. -/
def classifierStage2 (threshold : ℚ) (fs : FS) (det : Detector)
    (dec : Decoder) (p : String) : String :=
  match fs p with
  | none => binaryMarker
  | some fd =>
    let sample := fd.bytes.take (min fd.size (64 * 1024))
    let result := det sample
    match result.confidence, result.encoding with
    | some c, some e =>
      if threshold < c then
        match dec e fd.bytes with
        | some content => content
        | none => binaryMarker
      else binaryMarker
    | _, _ => binaryMarker

/-- Modelled from the spec: the full two-stage classifier the spec (and
claim C4) describe for files at or below the size threshold: first the
extension allow-list decoded with the fixed default encoding, and only on
failure of that stage the statistical detection of stage 2.  No such
stage-1 exists in the source; this definition exists to be compared with
`get_file_content`. -/
def get_file_content_spec (allowList : List String) (defaultEnc : String)
    (threshold : ℚ) (fs : FS) (det : Detector) (dec : Decoder) (p : String) :
    String :=
  match fs p with
  | none => binaryMarker
  | some fd =>
    if 1024 * 1024 < fd.size then binaryMarker
    else
      if hasAllowedExtension allowList p then
        match dec defaultEnc fd.bytes with
        | some content => content
        | none => classifierStage2 threshold fs det dec p
      else classifierStage2 threshold fs det dec p

/-- Python `str.startswith` on character lists. -/
def startsWithL : List Char → List Char → Bool
  | _, [] => true
  | [], _ :: _ => false
  | c :: s, d :: t => c == d && startsWithL s t

/-- Python `str.endswith` on character lists. -/
def endsWithL (s t : List Char) : Bool :=
  startsWithL s.reverse t.reverse

/-- Python `str.split("/")` on character lists: the maximal runs of
non-slash characters, keeping empty runs. -/
def splitSlash : List Char → List (List Char)
  | [] => [[]]
  | c :: rest =>
    match splitSlash rest with
    | [] => [[c]]
    | g :: gs => if c == '/' then [] :: g :: gs else (c :: g) :: gs

/-- The regex of `RepositoryHandler._strip_branch_from_url`
(repo_handler.py line 41):
`re.match(r"(https://github\.com/[^/]+/[^/]+)(?:/tree/[^/]+)?", url)`.
`re.match` anchors at the start and matches a prefix, so the match
succeeds exactly when the URL starts with `https://github.com/` followed
by two nonempty slash-free segments, and group 1 is the prefix up to and
including the second segment (an embedded `/tree/<branch>` tail merely
extends the ignored optional group). -/
def githubMatchGroup1 (url : List Char) : Option (List Char) :=
  let pre := "https://github.com/".data
  if startsWithL url pre then
    match splitSlash (url.drop pre.length) with
    | s0 :: s1 :: _ =>
      if s0 ≠ [] ∧ s1 ≠ [] then some (pre ++ s0 ++ '/' :: s1) else none
    | _ => none
  else none

/-- Translation of `RepositoryHandler._strip_branch_from_url`
(repo_handler.py lines 33-52): if the URL starts with
`https://github.com` and the regex matches, return group 1 with `.git`
appended unless already present; otherwise return the URL unchanged. -/
def strip_branch_from_url (repo_path : List Char) : List Char :=
  if startsWithL repo_path "https://github.com".data then
    match githubMatchGroup1 repo_path with
    | some base_url =>
      if endsWithL base_url ".git".data then base_url
      else base_url ++ ".git".data
    | none => repo_path
  else repo_path

/-- Translation of the attribute initialisation of
`RepositoryHandler.__init__` (repo_handler.py lines 24-25):
`self._repo_path = self._strip_branch_from_url(repo_path)` and
`self._branch = branch`.  The pair returned is
(`_repo_path`, `_branch`); note the branch parameter is stored as given,
nothing from the URL flows into it. -/
def handlerInit (repo_path : List Char) (branch : Option (List Char)) :
    List Char × Option (List Char) :=
  (strip_branch_from_url repo_path, branch)

/-- Observable events of `RepositoryHandler._clone_remote_repo`
(repo_handler.py lines 94-110), in program order.  `raiseCloneFailed` is
the event the spec's taxonomy would demand (wrapping the Git error in a
`CloneFailed`); the source has no code emitting it. -/
inductive CloneEv where
  | mkdtemp
  | cloneCall
  | setRepoDir
  | rmtree
  | raiseGitErr (msg : String)
  | raiseCloneFailed (msg : String)
deriving DecidableEq, Repr

/-- Translation of `RepositoryHandler._clone_remote_repo` (repo_handler.py
lines 94-110) as its event trace, parametrised by the outcome of the
external `git.Repo.clone_from` call: create the scratch directory, attempt
the clone; on success record the repository directory; on
`git.GitCommandError e` remove the scratch directory with
`shutil.rmtree(..., ignore_errors=True)` and then `raise e` — the very
exception object, unwrapped. -/
def clone_remote_repo (cloneOutcome : Except String Unit) : List CloneEv :=
  CloneEv.mkdtemp :: CloneEv.cloneCall ::
    (match cloneOutcome with
     | .ok _ => [CloneEv.setRepoDir]
     | .error msg => [CloneEv.rmtree, CloneEv.raiseGitErr msg])

/-- A directory tree on disk, the input of `os.walk`: an entry is a
regular file or a directory with its own listing (in enumeration order).
Symbolic links are not modelled, matching `followlinks=False`; with no
links, `os.path.realpath` is the identity and the `commonpath` /
`relpath` guards of `get_repo_structure` (repo_handler.py lines 131-155)
never fire, so they are omitted. -/
inductive FSTree where
  | file : FSTree
  | dir : List (String × FSTree) → FSTree

/-- A node of the nested-dict repository structure built by
`get_repo_structure`: Python's `False` leaf marker for a file, or a
nested dict for a directory. -/
inductive SNode where
  | file : SNode
  | dir : List (String × SNode) → SNode

/-- The file entries contributed by one visited directory
(`RepositoryHandler._build_structure`, repo_handler.py lines 249-268):
each regular file of the listing whose absolute path the ignore predicate
does not match becomes a leaf entry.  Paths are component lists; `base`
is the absolute path of the directory being visited. -/
def fileEntriesOf (ign : List String → Bool) (base : List String)
    (es : List (String × FSTree)) : List (String × SNode) :=
  es.filterMap (fun e =>
    match e with
    | (n, FSTree.file) => if ign (base ++ [n]) then none else some (n, SNode.file)
    | (_, FSTree.dir _) => none)

mutual

/-- Translation of the `os.walk` loop of
`RepositoryHandler.get_repo_structure` (repo_handler.py lines 123-169)
restricted to one visited directory and its subtree.  A root whose path
has a `.git` component is skipped with its subtree pruned (line 144-147).
Otherwise the non-ignored files are entered (`_build_structure`), and
each subdirectory surviving `_filter_dirs` (lines 204-236; the root-level
re-filter of lines 162-167 applies the same predicate to the same paths
and is a no-op) is traversed; its dict entry is created by the
`setdefault` chain when the walk visits it, which the `.git` check
prevents for a subdirectory named `.git`. -/
def buildTree (ign : List String → Bool) (base : List String) :
    FSTree → List (String × SNode)
  | FSTree.file => []
  | FSTree.dir es =>
    if ".git" ∈ base then []
    else fileEntriesOf ign base es ++ dirEntriesOf ign base es

/-- The directory entries contributed below one visited directory: a
subdirectory pruned by the ignore predicate is neither traversed nor
entered; a subdirectory whose path gains a `.git` component is traversed
by `os.walk` but skipped at its visit, so it contributes no entry; any
other subdirectory becomes a nested dict built from its own visit. -/
def dirEntriesOf (ign : List String → Bool) (base : List String) :
    List (String × FSTree) → List (String × SNode)
  | [] => []
  | (_, FSTree.file) :: rest => dirEntriesOf ign base rest
  | (n, FSTree.dir es2) :: rest =>
    if ign (base ++ [n]) then dirEntriesOf ign base rest
    else if ".git" ∈ base ++ [n] then dirEntriesOf ign base rest
    else (n, SNode.dir (buildTree ign (base ++ [n]) (FSTree.dir es2))) ::
      dirEntriesOf ign base rest

end

/-- Translation of `RepositoryHandler.get_repo_structure` (repo_handler.py
lines 112-173): walk the repository directory (whose absolute path has
components `repoComps` and whose listing is `root`) and build the nested
structure. -/
def get_repo_structure (ign : List String → Bool) (repoComps : List String)
    (root : List (String × FSTree)) : List (String × SNode) :=
  buildTree ign repoComps (FSTree.dir root)

/-- First entry with the given key in a structure level (Python dict
lookup; keys are unique in a dict). -/
def findS : List (String × SNode) → String → Option SNode
  | [], _ => none
  | (n, v) :: rest, k => if n = k then some v else findS rest k

/-- First entry with the given name in a directory listing. -/
def findF : List (String × FSTree) → String → Option FSTree
  | [], _ => none
  | (n, v) :: rest, k => if n = k then some v else findF rest k

/-- Whether the structure has a file leaf at the given component path. -/
def isFileAtS : List (String × SNode) → List String → Bool
  | _, [] => false
  | es, [k] =>
    match findS es k with
    | some SNode.file => true
    | _ => false
  | es, k :: rest =>
    match findS es k with
    | some (SNode.dir es2) => isFileAtS es2 rest
    | _ => false

/-- Whether the disk tree has a regular file at the given component path. -/
def isFileAtF : List (String × FSTree) → List String → Bool
  | _, [] => false
  | es, [k] =>
    match findF es k with
    | some FSTree.file => true
    | _ => false
  | es, k :: rest =>
    match findF es k with
    | some (FSTree.dir es2) => isFileAtF es2 rest
    | _ => false

/-- Entry names of one directory listing are pairwise distinct. -/
def nodupKeys : List (String × FSTree) → Bool
  | [] => true
  | (n, _) :: rest => !(rest.any (fun e => e.1 == n)) && nodupKeys rest

mutual

/-- Well-formedness of a disk tree: every directory listing has distinct
entry names (true of a real filesystem, where one directory cannot hold
two entries of the same name). -/
def wfT : FSTree → Bool
  | FSTree.file => true
  | FSTree.dir es => nodupKeys es && wfL es

/-- Well-formedness of every subtree of a listing. -/
def wfL : List (String × FSTree) → Bool
  | [] => true
  | (_, t) :: rest => wfT t && wfL rest

end

/-- Python `os.path.join` for one component (POSIX separator), as used
throughout `main.py`, `gui.py` and `file_writer.py`. -/
def pjoin (a b : String) : String :=
  if a = "" then b else a ++ "/" ++ b

/-- The walk of `GitRepoApp._is_directory` (main.py lines 119-126) along
already-split path components: every component must name a nested dict. -/
def isDirGo : List (String × SNode) → List String → Bool
  | _, [] => true
  | cur, part :: rest =>
    match findS cur part with
    | some (SNode.dir es) => isDirGo es rest
    | _ => false

/-- Translation of `GitRepoApp._is_directory` (main.py lines 119-126):
split the full path on the separator and walk the structure. -/
def is_directory (struct : List (String × SNode)) (path : String) : Bool :=
  isDirGo struct ((splitSlash path.data).map (fun cs => String.mk cs))

/-- The matching condition of `GitRepoApp._select_folder` /
`_deselect_folder` (main.py lines 143-145, 155-157): the item is the
folder itself, or — when the folder prefix is nonempty — the item path
starts with `folder_path + os.sep`. -/
def selMatch (folder_path item : String) : Bool :=
  if item = folder_path then true
  else if folder_path = "" then false
  else startsWithL item.data (folder_path.data ++ ['/'])

/-- The in-memory state `GitRepoApp` and `RepositoryGUI` keep for
selection: the built structure (`self.structure`), the listbox rows in
display order as (full path, strikethrough?) pairs
(`RepositoryGUI.item_full_paths` / `item_tags`), and the selected-files
set (`self.selected_files`). -/
structure AppState where
  repoStruct : List (String × SNode)
  rows : List (String × Bool)
  selected : Finset String

/-- Translation of `GitRepoApp._select_folder` (main.py lines 138-148):
every listbox row matching the folder loses its strikethrough, and every
matching non-directory path is added to the selected set. -/
def select_folder (app : AppState) (folder_path : String) : AppState :=
  { app with
    rows := app.rows.map
      (fun r => if selMatch folder_path r.1 then (r.1, false) else r),
    selected := app.rows.foldl
      (fun s r =>
        if selMatch folder_path r.1 && !(is_directory app.repoStruct r.1)
        then insert r.1 s else s)
      app.selected }

/-- Translation of `GitRepoApp._deselect_folder` (main.py lines 150-160):
every matching row gains a strikethrough, and every matching
non-directory path is discarded from the selected set. -/
def deselect_folder (app : AppState) (folder_path : String) : AppState :=
  { app with
    rows := app.rows.map
      (fun r => if selMatch folder_path r.1 then (r.1, true) else r),
    selected := app.rows.foldl
      (fun s r =>
        if selMatch folder_path r.1 && !(is_directory app.repoStruct r.1)
        then s.erase r.1 else s)
      app.selected }

/-- Translation of `GitRepoApp._select_file` (main.py lines 128-131). -/
def select_file (app : AppState) (i : Nat) (path : String) : AppState :=
  { app with rows := app.rows.set i (path, false),
             selected := insert path app.selected }

/-- Translation of `GitRepoApp._deselect_file` (main.py lines 133-136). -/
def deselect_file (app : AppState) (i : Nat) (path : String) : AppState :=
  { app with rows := app.rows.set i (path, true),
             selected := app.selected.erase path }

/-- Translation of `GitRepoApp.on_file_select` (main.py lines 98-117) for
a click resolved to listbox index `i`: read the clicked row's full path
and tags, decide directory-hood from the structure and selectedness from
the clicked row's own strikethrough tag, and dispatch.  The save-button
update (line 117) has no bearing on the selection state. -/
def on_file_select (app : AppState) (i : Nat) : AppState :=
  match app.rows[i]? with
  | none => app
  | some (full_path, struck) =>
    let is_dir := is_directory app.repoStruct full_path
    let is_selected := !struck
    if is_dir then
      if is_selected then deselect_folder app full_path
      else select_folder app full_path
    else
      if is_selected then deselect_file app i full_path
      else select_file app i full_path

/-- Translation of `FileWriter._get_all_files` (file_writer.py lines
89-107) and of the identical `GitRepoApp._get_all_files` (main.py lines
87-96), returning the file paths in traversal order (the Python functions
return them as a set). -/
def get_all_files : String → List (String × SNode) → List String
  | _, [] => []
  | pre, (n, SNode.file) :: rest => pjoin pre n :: get_all_files pre rest
  | pre, (n, SNode.dir es) :: rest =>
    get_all_files (pjoin pre n) es ++ get_all_files pre rest

/-- Translation of `FileWriter._write_structure` (file_writer.py lines
53-68): the rendered tree lines. -/
def write_structure (pre : String) : List (String × SNode) → List String
  | [] => []
  | (n, SNode.dir es) :: rest =>
    (pre ++ "└── " ++ n ++ "/") ::
      (write_structure (pre ++ "    ") es ++ write_structure pre rest)
  | (n, SNode.file) :: rest =>
    (pre ++ "    ├── " ++ n) :: write_structure pre rest

/-- The report `FileWriter.save_to_file` writes: the rendered tree lines
and, for the Files Content section, the (path, content) blocks in the
order written. -/
structure Report where
  treeLines : List String
  blocks : List (String × String)

/-- Translation of `FileWriter.save_to_file` (file_writer.py lines
26-51): re-query the structure, write the tree, then set
`self.selected_files = self.selected_files or all_files` — an empty
selection set is falsy in Python, so it is silently replaced by the set
of all files of the structure — and write one content block per selected
file in sorted path order.  Per-file content retrieval is abstracted by
`content`. -/
def fw_save_to_file (struct : List (String × SNode)) (selected : Finset String)
    (content : String → String) : Report :=
  let all_files := (get_all_files "" struct).toFinset
  let sel := if selected = ∅ then all_files else selected
  let sorted_files := sel.sort (· ≤ ·)
  { treeLines := write_structure "" struct,
    blocks := sorted_files.map (fun p => (p, content p)) }

/-- The attributes the class `FileWriter` defines (file_writer.py lines
15-107): its five methods.  Python resolves `writer.<name>` against this
set and raises `AttributeError` when the name is absent. -/
def fileWriterAttrs : List String :=
  ["__init__", "save_to_file", "_write_structure", "_write_file_contents",
   "_get_all_files"]

/-- Outcome of the application-level save. -/
inductive SaveOutcome where
  | warnedNoFiles
  | raisedAttrErr (attr : String)
  | saved (r : Report) (path : String)

/-- Translation of `GitRepoApp.save_to_file` (main.py lines 178-191): an
empty selection only warns; otherwise a `FileWriter` is built and
`writer.get_user_home_directory()` is evaluated — an attribute lookup
against `FileWriter`'s attributes that raises `AttributeError` when
absent — before the output path is joined and `writer.save_to_file` is
invoked. -/
def app_save_to_file (struct : List (String × SNode))
    (selected : Finset String) (content : String → String)
    (home : String) : SaveOutcome :=
  if selected = ∅ then SaveOutcome.warnedNoFiles
  else if "get_user_home_directory" ∈ fileWriterAttrs then
    SaveOutcome.saved (fw_save_to_file struct selected content)
      (pjoin home "repo_contents.txt")
  else SaveOutcome.raisedAttrErr "get_user_home_directory"

/-- A detector that never identifies a charset but reports a numeric
(zero) confidence. -/
def det0 : Detector := fun _ => ⟨none, some 0⟩

/-- A decoder on which every decode attempt fails. -/
def decNone : Decoder := fun _ _ => none

/-- A small readable file `a.txt` holding the two bytes of "hi". -/
def fsPlain : FS := fun p =>
  if p = "a.txt" then some ⟨2, [104, 105], true, true⟩ else none

/-- A file `secret.txt` whose stat succeeds but whose open fails
(e.g. permissions were revoked between the walk and the export). -/
def fsDenied : FS := fun p =>
  if p = "secret.txt" then some ⟨5, [104, 105, 33, 33, 33], true, false⟩ else none

/-- An empty, fully readable file `empty.txt`. -/
def fsEmpty : FS := fun p =>
  if p = "empty.txt" then some ⟨0, [], true, true⟩ else none

/-- A file `big.bin` above the size threshold. -/
def fsBig : FS := fun p =>
  if p = "big.bin" then some ⟨1024 * 1024 + 1, [], true, true⟩ else none

/-- A readable markdown file `a.md` holding the two bytes of "hi". -/
def fsMd : FS := fun p =>
  if p = "a.md" then some ⟨2, [104, 105], true, true⟩ else none

/-- A detector in the mould of `charset_normalizer` on an empty or plain
sample: identifies the default encoding with full confidence. -/
def detUtf8 : Detector := fun _ => ⟨some "utf_8", some 1⟩

/-- A detector that identifies an encoding but with zero confidence, as
statistical detection may on a very short sample. -/
def detLow : Detector := fun _ => ⟨some "utf-8", some 0⟩

/-- A decoder that decodes the empty byte string (to the empty text) and
nothing else. -/
def decEmpty : Decoder := fun _ bs => if bs = [] then some "" else none

/-- A decoder that decodes the bytes of "hi" (to "hi") and nothing else. -/
def decHi : Decoder := fun _ bs => if bs = [104, 105] then some "hi" else none

/-- A listing with a submodule-style regular file named `.git` inside a
subdirectory (as a Git submodule checkout or worktree produces). -/
def gitFileTree : List (String × FSTree) :=
  [("sub", FSTree.dir [(".git", FSTree.file)])]

/-- A well-formed listing with one source file under `src` and the usual
`.git` metadata directory. -/
def plainTree : List (String × FSTree) :=
  [("src", FSTree.dir [("a.py", FSTree.file)]),
   (".git", FSTree.dir [("HEAD", FSTree.file)])]

/-- App state with directory `d` holding files `a` and `b`, where only
`d/a` is selected (a partial selection: `d/b` was toggled off) and the
directory row itself carries no strikethrough. -/
def appPartial : AppState :=
  { repoStruct := [("d", SNode.dir [("a", SNode.file), ("b", SNode.file)])],
    rows := [("d", false), ("d/a", false), ("d/b", true)],
    selected := {"d/a"} }

/-- App state for the same repository immediately after load: every file
selected, no strikethrough anywhere. -/
def appFresh : AppState :=
  { repoStruct := [("d", SNode.dir [("a", SNode.file), ("b", SNode.file)])],
    rows := [("d", false), ("d/a", false), ("d/b", false)],
    selected := {"d/a", "d/b"} }

/-- The matching non-directory listbox paths of a folder: exactly the
descendant files the folder toggle adds or removes. -/
def folderFiles (app : AppState) (folder_path : String) : Finset String :=
  ((app.rows.map Prod.fst).filter
    (fun q => selMatch folder_path q && !(is_directory app.repoStruct q))).toFinset

/-- Claim C7: for every file whose stat size exceeds the fixed `1024 * 1024`
threshold, `get_file_content` returns the binary marker, whatever the
file's bytes, open-ability, detector and decoder are — in particular
without reading any content. -/
theorem large_file_yields_binary_marker (fs : FS) (det : Detector)
    (dec : Decoder) (p : String) (fd : FileData)
    (hfs : fs p = some fd) (hstat : fd.statOk = true)
    (hsize : 1024 * 1024 < fd.size) :
    get_file_content fs det dec p = .ok binaryMarker := by
  simp [get_file_content, getsize, hfs, hstat, hsize, bind, Except.bind, pure, Except.pure]

/-- Witness for C7: a 1 MiB + 1 byte file is reported as the binary
marker even though its recorded bytes are empty and the decoder would
fail on everything. -/
theorem large_file_yields_binary_marker_witness :
    (fsBig "big.bin" = some ⟨1024 * 1024 + 1, [], true, true⟩ ∧
      1024 * 1024 < 1024 * 1024 + 1) ∧
    get_file_content fsBig det0 decNone "big.bin" = .ok binaryMarker :=
  ⟨⟨rfl, by omega⟩,
    large_file_yields_binary_marker fsBig det0 decNone "big.bin"
      ⟨1024 * 1024 + 1, [], true, true⟩ rfl rfl (by decide)⟩

/-- Claim C8: an empty file (stat size zero, no bytes) on which the detector —
as `charset_normalizer` does on an empty sample — reports an encoding
with confidence above the threshold, and whose decode of the empty byte
string yields the empty text, makes `get_file_content` return the empty
text, never the binary marker. -/
theorem empty_file_yields_empty_text (fs : FS) (det : Detector)
    (dec : Decoder) (p : String) (fd : FileData) (e : String) (c : ℚ)
    (hfs : fs p = some fd) (hstat : fd.statOk = true)
    (hopen : fd.openOk = true) (hsize : fd.size = 0) (hbytes : fd.bytes = [])
    (hdet : det [] = ⟨some e, some c⟩) (hc : (95 : ℚ) / 100 < c)
    (hdec : dec e [] = some "") :
    get_file_content fs det dec p = .ok "" := by
  simp [get_file_content, getsize, detect_encoding, openBytes, read_text_file,
    hfs, hstat, hopen, hsize, hbytes, hdet, hc, hdec, bind, Except.bind, pure,
    Except.pure]

/-- Witness for C8: the empty file with the utf-8-with-full-confidence
detector and a decoder that decodes the empty byte string. -/
theorem empty_file_yields_empty_text_witness :
    (fsEmpty "empty.txt" = some ⟨0, [], true, true⟩ ∧
      detUtf8 [] = ⟨some "utf_8", some 1⟩ ∧ (95 : ℚ) / 100 < 1 ∧
      decEmpty "utf_8" [] = some "") ∧
    get_file_content fsEmpty detUtf8 decEmpty "empty.txt" = .ok "" :=
  ⟨⟨rfl, rfl, by norm_num, rfl⟩,
    empty_file_yields_empty_text fsEmpty detUtf8 decEmpty "empty.txt"
      ⟨0, [], true, true⟩ "utf_8" 1 rfl rfl rfl rfl rfl rfl (by norm_num) rfl⟩

/-- Claim C9: with any non-empty selection, the application-level save raises
`AttributeError` for `get_user_home_directory` — an attribute the
`FileWriter` class does not define — before any report is produced. -/
theorem app_save_raises_attribute_error (struct : List (String × SNode))
    (selected : Finset String) (content : String → String) (home : String)
    (h : selected ≠ ∅) :
    app_save_to_file struct selected content home =
      SaveOutcome.raisedAttrErr "get_user_home_directory" := by
  unfold app_save_to_file
  rw [if_neg h, if_neg (by decide)]

/-- Witness for C9: saving with the singleton selection of `x.txt`. -/
theorem app_save_raises_attribute_error_witness :
    ({"x.txt"} : Finset String) ≠ ∅ ∧
    app_save_to_file [("x.txt", SNode.file)] {"x.txt"} (fun _ => "text") "/home/u" =
      SaveOutcome.raisedAttrErr "get_user_home_directory" :=
  ⟨by decide,
    app_save_raises_attribute_error [("x.txt", SNode.file)] {"x.txt"}
      (fun _ => "text") "/home/u" (by decide)⟩

/-- Claim C10: invoking `FileWriter.save_to_file` with an empty selection set
writes a Files Content section whose blocks cover exactly the full set of
file paths of the structure (the empty selection is silently replaced by
all files). -/
theorem empty_selection_writes_all_files (struct : List (String × SNode))
    (content : String → String) :
    ((fw_save_to_file struct ∅ content).blocks.map Prod.fst).toFinset =
      (get_all_files "" struct).toFinset := by
  unfold fw_save_to_file
  simp only [if_pos rfl, List.map_map]
  have h1 : (Prod.fst ∘ fun p => (p, content p)) = id := rfl
  rw [h1, List.map_id]
  ext a
  simp [Finset.mem_sort]

/-- Claim C6 counterexample: a failing clone re-raises the raw
`git.GitCommandError` after removing the scratch directory; no
`CloneFailed` wrapper is ever raised, contradicting the claim that the
underlying client error is never propagated raw. -/
theorem clone_failure_not_wrapped :
    clone_remote_repo (Except.error "boom") =
      [CloneEv.mkdtemp, CloneEv.cloneCall, CloneEv.rmtree,
        CloneEv.raiseGitErr "boom"] ∧
    CloneEv.raiseCloneFailed "boom" ∉ clone_remote_repo (Except.error "boom") :=
  ⟨rfl, by decide⟩

/-- Claim C6 amended: on clone failure the scratch directory is removed before
the failure is surfaced, but the error surfaced is the raw
`GitCommandError` itself — no `CloneFailed` wrapper is raised for any
message. -/
theorem clone_failure_removes_scratch_raises_raw (msg m : String) :
    clone_remote_repo (Except.error msg) =
      [CloneEv.mkdtemp, CloneEv.cloneCall, CloneEv.rmtree,
        CloneEv.raiseGitErr msg] ∧
    CloneEv.raiseCloneFailed m ∉ clone_remote_repo (Except.error msg) := by
  refine ⟨rfl, ?_⟩
  simp [clone_remote_repo]

/-- A string starting with the concatenation of two patterns starts with
the first. -/
theorem startsWithL_append_left (s a b : List Char)
    (h : startsWithL s (a ++ b) = true) : startsWithL s a = true := by
  induction a generalizing s with
  | nil => simp [startsWithL]
  | cons c a' ih =>
    cases s with
    | nil => simp [startsWithL] at h
    | cons d s' =>
      simp only [List.cons_append, startsWithL, Bool.and_eq_true] at h ⊢
      exact ⟨h.1, ih s' h.2⟩

/-- Claim C5 counterexample: for the GitHub web-UI URL
`https://github.com/owner/repo/tree/dev` with no explicit branch, the
handler normalizes the URL to `https://github.com/owner/repo.git` but
leaves the branch parameter `None`: the embedded branch `dev` is
discarded, not extracted into the branch parameter. -/
theorem embedded_branch_discarded_cex :
    handlerInit "https://github.com/owner/repo/tree/dev".data none =
      ("https://github.com/owner/repo.git".data, none) ∧
    (handlerInit "https://github.com/owner/repo/tree/dev".data none).2 ≠
      some "dev".data := by
  constructor
  · decide
  · decide

/-- Claim C5 amended: whenever the URL regex matches (the URL names a GitHub
owner/repo, optionally with an embedded branch segment), the handler
stores the URL truncated to group 1 with the `.git` suffix ensured, and
stores as branch exactly the explicitly passed parameter — nothing from
the URL's branch segment flows into it. -/
theorem github_url_normalized_branch_kept (url : List Char)
    (branch : Option (List Char)) (base_url : List Char)
    (h : githubMatchGroup1 url = some base_url) :
    handlerInit url branch =
      ((if endsWithL base_url ".git".data then base_url
        else base_url ++ ".git".data), branch) := by
  have hs : startsWithL url "https://github.com/".data = true := by
    unfold githubMatchGroup1 at h
    by_cases hst : startsWithL url "https://github.com/".data = true
    · exact hst
    · rw [if_neg (by simp [hst])] at h
      exact absurd h (by simp)
  have hs2 : startsWithL url "https://github.com".data = true := by
    apply startsWithL_append_left url "https://github.com".data ['/']
    have he : "https://github.com".data ++ ['/'] = "https://github.com/".data := by
      decide
    rw [he]
    exact hs
  unfold handlerInit strip_branch_from_url
  rw [if_pos (by simp [hs2]), h]

/-- Witness for C5 amended: the `/tree/dev` URL with explicit branch
`main`; the stored branch stays `main`. -/
theorem github_url_normalized_branch_kept_witness :
    githubMatchGroup1 "https://github.com/owner/repo/tree/dev".data =
      some "https://github.com/owner/repo".data ∧
    handlerInit "https://github.com/owner/repo/tree/dev".data
        (some "main".data) =
      ((if endsWithL "https://github.com/owner/repo".data ".git".data
        then "https://github.com/owner/repo".data
        else "https://github.com/owner/repo".data ++ ".git".data),
        some "main".data) :=
  ⟨by decide,
    github_url_normalized_branch_kept
      "https://github.com/owner/repo/tree/dev".data (some "main".data)
      "https://github.com/owner/repo".data (by decide)⟩

/-- Claim C1 counterexample: a file whose stat succeeds but whose open for the
encoding-sampling stage fails makes `get_file_content` raise (the open in
`_detect_encoding` sits in no try/except), rather than yield the binary
marker. -/
theorem sampling_read_failure_raises :
    get_file_content fsDenied det0 decNone "secret.txt" =
      .error PyErr.osError := rfl

/-- Claim C1 amended: decode errors and read failures in the full-content read
stage degrade to the binary marker, so `get_file_content` never raises
provided the stat succeeds, the open for the encoding-sampling stage
succeeds, and the detector reports a numeric confidence; a failure of
stat or of that open (or a `None` confidence) propagates as an
exception. -/
theorem content_read_no_raise (fs : FS) (det : Detector) (dec : Decoder)
    (p : String) (fd : FileData) (c : ℚ)
    (hfs : fs p = some fd) (hstat : fd.statOk = true) (hopen : fd.openOk = true)
    (hconf : (det (fd.bytes.take (min fd.size (64 * 1024)))).confidence = some c) :
    exceptOk (get_file_content fs det dec p) = true := by
  have h1 : getsize fs p = .ok fd.size := by simp [getsize, hfs, hstat]
  have h2 : detect_encoding fs det p =
      .ok (if (95 : ℚ) / 100 < c
        then (det (fd.bytes.take (min fd.size (64 * 1024)))).encoding
        else none) := by
    simp [detect_encoding, openBytes, getsize, hfs, hstat, hopen, hconf,
      bind, Except.bind]
  unfold get_file_content
  rw [h1]
  by_cases hbig : 1024 * 1024 < fd.size
  · simp [hbig, bind, Except.bind, pure, Except.pure, exceptOk]
  · rw [h2]
    cases hif : (if (95 : ℚ) / 100 < c
        then (det (fd.bytes.take (min fd.size (64 * 1024)))).encoding
        else none) with
    | none => simp [hbig, hif, bind, Except.bind, pure, Except.pure, exceptOk]
    | some e => simp [hbig, hif, bind, Except.bind, pure, Except.pure, exceptOk]

/-- Witness for C1 amended: a readable two-byte file under a detector
reporting numeric confidence; the read completes without raising. -/
theorem content_read_no_raise_witness :
    (fsPlain "a.txt" = some ⟨2, [104, 105], true, true⟩ ∧
      (det0 ([104, 105].take (min 2 (64 * 1024)))).confidence = some 0) ∧
    exceptOk (get_file_content fsPlain det0 decNone "a.txt") = true :=
  ⟨⟨rfl, rfl⟩,
    content_read_no_raise fsPlain det0 decNone "a.txt"
      ⟨2, [104, 105], true, true⟩ 0 rfl rfl rfl rfl⟩

/-- Claim C4 counterexample: on the markdown file `a.md` whose bytes decode in
the default encoding but on which statistical detection reports low
confidence, the code returns the binary marker, while the two-stage
classifier the claim describes (allow-list containing markdown, default
encoding utf-8) would return the decoded text: no allow-list stage
exists in the code. -/
theorem no_allowlist_stage_cex :
    get_file_content fsMd detLow decHi "a.md" = .ok binaryMarker ∧
    get_file_content_spec [".md"] "utf-8" ((95 : ℚ) / 100) fsMd detLow decHi
      "a.md" = "hi" := by
  constructor
  · norm_num [get_file_content, detect_encoding, getsize, openBytes, fsMd,
      detLow, bind, Except.bind, pure, Except.pure]
  · rfl

/-- Claim C4 amended: for every file at or below the size threshold that can be
stat-ed and opened and on which the detector reports a numeric
confidence, classification is single-stage: `get_file_content` returns
exactly the result of the spec's stage-2 statistical classifier (bounded
sample, 0.95 confidence threshold, decode-full-or-marker); no extension
allow-list stage precedes it. -/
theorem classification_single_stage (fs : FS) (det : Detector)
    (dec : Decoder) (p : String) (fd : FileData) (c : ℚ)
    (hfs : fs p = some fd) (hstat : fd.statOk = true) (hopen : fd.openOk = true)
    (hsize : fd.size ≤ 1024 * 1024)
    (hconf : (det (fd.bytes.take (min fd.size (64 * 1024)))).confidence = some c) :
    get_file_content fs det dec p =
      .ok (classifierStage2 ((95 : ℚ) / 100) fs det dec p) := by
  have hbig : ¬ (1024 * 1024 < fd.size) := not_lt.mpr hsize
  have h1 : getsize fs p = .ok fd.size := by simp [getsize, hfs, hstat]
  have h2 : detect_encoding fs det p =
      .ok (if (95 : ℚ) / 100 < c
        then (det (fd.bytes.take (min fd.size (64 * 1024)))).encoding
        else none) := by
    simp [detect_encoding, openBytes, getsize, hfs, hstat, hopen, hconf,
      bind, Except.bind]
  by_cases hc95 : (95 : ℚ) / 100 < c <;>
    cases henc : (det (fd.bytes.take (min fd.size (64 * 1024)))).encoding <;>
    simp [get_file_content, classifierStage2, detect_encoding, getsize,
      openBytes, read_text_file, hfs, hstat, hopen, hbig, hconf, henc, hc95,
      bind, Except.bind, pure, Except.pure, h1, h2]

/-- Witness for C4 amended: the plain two-byte text file under the
full-confidence detector; the code's result coincides with the stage-2
classifier's. -/
theorem classification_single_stage_witness :
    (fsPlain "a.txt" = some ⟨2, [104, 105], true, true⟩ ∧
      (2 : Nat) ≤ 1024 * 1024 ∧
      (detUtf8 ([104, 105].take (min 2 (64 * 1024)))).confidence = some 1) ∧
    get_file_content fsPlain detUtf8 decHi "a.txt" =
      .ok (classifierStage2 ((95 : ℚ) / 100) fsPlain detUtf8 decHi "a.txt") :=
  ⟨⟨rfl, by norm_num, rfl⟩,
    classification_single_stage fsPlain detUtf8 decHi "a.txt"
      ⟨2, [104, 105], true, true⟩ 1 rfl rfl rfl (by norm_num) rfl⟩

/-- Folding a conditional insert over rows adds exactly the matching
paths. -/
theorem foldl_insert_filter (P : String → Bool) (rows : List (String × Bool))
    (s : Finset String) :
    rows.foldl (fun t r => if P r.1 then insert r.1 t else t) s =
      s ∪ ((rows.map Prod.fst).filter P).toFinset := by
  induction rows generalizing s with
  | nil => simp
  | cons r rs ih =>
    by_cases h : P r.1
    · simp only [List.foldl_cons, h, if_true, List.map_cons, List.filter_cons,
        List.toFinset_cons, ih, Finset.union_insert, Finset.insert_union]
    · simp only [List.foldl_cons, h, if_false, List.map_cons, List.filter_cons,
        Bool.false_eq_true, ih]

/-- Folding a conditional erase over rows removes exactly the matching
paths. -/
theorem foldl_erase_filter (P : String → Bool) (rows : List (String × Bool))
    (s : Finset String) :
    rows.foldl (fun t r => if P r.1 then t.erase r.1 else t) s =
      s \ ((rows.map Prod.fst).filter P).toFinset := by
  induction rows generalizing s with
  | nil => simp
  | cons r rs ih =>
    by_cases h : P r.1
    · simp only [List.foldl_cons, h, if_true, List.map_cons, List.filter_cons,
        List.toFinset_cons, ih]
      ext a
      simp only [Finset.mem_sdiff, Finset.mem_erase, Finset.mem_insert]
      tauto
    · simp only [List.foldl_cons, h, if_false, List.map_cons, List.filter_cons,
        Bool.false_eq_true, ih]

/-- Selecting a folder adds exactly its matching non-directory paths. -/
theorem select_folder_selected (app : AppState) (fp : String) :
    (select_folder app fp).selected = app.selected ∪ folderFiles app fp :=
  foldl_insert_filter
    (fun q => selMatch fp q && !(is_directory app.repoStruct q))
    app.rows app.selected

/-- Deselecting a folder removes exactly its matching non-directory
paths. -/
theorem deselect_folder_selected (app : AppState) (fp : String) :
    (deselect_folder app fp).selected = app.selected \ folderFiles app fp :=
  foldl_erase_filter
    (fun q => selMatch fp q && !(is_directory app.repoStruct q))
    app.rows app.selected

/-- A folder path matches itself. -/
theorem selMatch_self (p : String) : selMatch p p = true := by
  simp [selMatch]

/-- Folder toggles change only the strikethrough component of rows, so
the matching file set is unchanged. -/
theorem folderFiles_rows_eq (app app' : AppState) (fp : String)
    (hstructEq : app'.repoStruct = app.repoStruct)
    (hfst : app'.rows.map Prod.fst = app.rows.map Prod.fst) :
    folderFiles app' fp = folderFiles app fp := by
  unfold folderFiles
  rw [hstructEq, hfst]

/-- The first component of rows survives a folder deselect. -/
theorem deselect_folder_rows_fst (app : AppState) (fp : String) :
    (deselect_folder app fp).rows.map Prod.fst = app.rows.map Prod.fst := by
  unfold deselect_folder
  simp only [List.map_map]
  apply List.map_congr_left
  intro r _
  by_cases h : selMatch fp r.1 <;> simp [h]

/-- The first component of rows survives a folder select. -/
theorem select_folder_rows_fst (app : AppState) (fp : String) :
    (select_folder app fp).rows.map Prod.fst = app.rows.map Prod.fst := by
  unfold select_folder
  simp only [List.map_map]
  apply List.map_congr_left
  intro r _
  by_cases h : selMatch fp r.1 <;> simp [h]

/-- Claim C2 counterexample: with directory `d` holding files `a` and `b` and a
partial selection (only `d/a` selected), toggling `d` twice does NOT
restore the original selection state of every descendant file: `d/b` was
deselected before and is selected afterwards. -/
theorem folder_double_toggle_cex :
    "d/b" ∉ appPartial.selected ∧
    "d/b" ∈ (on_file_select (on_file_select appPartial 0) 0).selected := by
  constructor
  · decide
  · decide

/-- Claim C2 amended: toggling a directory twice restores the selection state
of every descendant file when the starting state is uniform and
consistent with the directory row's own strikethrough tag — every
descendant file selected while the row is unstruck (as after a fresh
load), or none selected while it is struck.  With a partial selection the
double toggle instead forces all descendants to one state (see the
counterexample). -/
theorem folder_double_toggle_restores (app : AppState) (i : Nat) (p : String)
    (b : Bool)
    (hrow : app.rows[i]? = some (p, b))
    (hdir : is_directory app.repoStruct p = true)
    (hstate : (b = false ∧ folderFiles app p ⊆ app.selected) ∨
      (b = true ∧ Disjoint (folderFiles app p) app.selected)) :
    (on_file_select (on_file_select app i) i).selected = app.selected := by
  rcases hstate with ⟨hb, hsub⟩ | ⟨hb, hdis⟩
  · subst hb
    have e1 : on_file_select app i = deselect_folder app p := by
      unfold on_file_select
      rw [hrow]
      simp [hdir]
    have hrows1 : (deselect_folder app p).rows[i]? = some (p, true) := by
      unfold deselect_folder
      simp [List.getElem?_map, hrow, selMatch_self]
    have e2 : on_file_select (deselect_folder app p) i =
        select_folder (deselect_folder app p) p := by
      unfold on_file_select
      rw [hrows1]
      have : is_directory (deselect_folder app p).repoStruct p = true := hdir
      simp [this]
    rw [e1, e2, select_folder_selected, deselect_folder_selected,
      folderFiles_rows_eq app (deselect_folder app p) p rfl
        (deselect_folder_rows_fst app p),
      Finset.sdiff_union_self_eq_union]
    exact Finset.union_eq_left.mpr hsub
  · subst hb
    have e1 : on_file_select app i = select_folder app p := by
      unfold on_file_select
      rw [hrow]
      simp [hdir]
    have hrows1 : (select_folder app p).rows[i]? = some (p, false) := by
      unfold select_folder
      simp [List.getElem?_map, hrow, selMatch_self]
    have e2 : on_file_select (select_folder app p) i =
        deselect_folder (select_folder app p) p := by
      unfold on_file_select
      rw [hrows1]
      have : is_directory (select_folder app p).repoStruct p = true := hdir
      simp [this]
    rw [e1, e2, deselect_folder_selected, select_folder_selected,
      folderFiles_rows_eq app (select_folder app p) p rfl
        (select_folder_rows_fst app p),
      Finset.union_sdiff_right]
    exact Finset.sdiff_eq_self_iff_disjoint.mpr hdis.symm

/-- Witness for C2 amended: on the freshly loaded state (all files
selected, nothing struck) double-toggling directory `d` restores the
selection. -/
theorem folder_double_toggle_restores_witness :
    (appFresh.rows[0]? = some ("d", false) ∧
      is_directory appFresh.repoStruct "d" = true ∧
      folderFiles appFresh "d" ⊆ appFresh.selected) ∧
    (on_file_select (on_file_select appFresh 0) 0).selected =
      appFresh.selected :=
  ⟨⟨by decide, by decide, by decide⟩,
    folder_double_toggle_restores appFresh 0 "d" false (by decide) (by decide)
      (Or.inl ⟨rfl, by decide⟩)⟩

/-- The empty structure has no file at any path. -/
theorem isFileAtS_nil (p : List String) : isFileAtS [] p = false := by
  rcases p with _ | ⟨k, _ | ⟨k2, rest⟩⟩ <;> rfl

/-- Lookup in an appended structure tries the left part first. -/
theorem findS_append (a b : List (String × SNode)) (k : String) :
    findS (a ++ b) k =
      match findS a k with
      | some v => some v
      | none => findS b k := by
  induction a with
  | nil => rfl
  | cons e rest ih =>
    obtain ⟨n, v⟩ := e
    by_cases h : n = k
    · simp [findS, h]
    · simp [findS, h, ih]

/-- A hit among the file entries of a visited directory comes from a
non-ignored regular file of its listing. -/
theorem findS_fileEntries (ign : List String → Bool) (base : List String)
    (es : List (String × FSTree)) (k : String) (v : SNode)
    (h : findS (fileEntriesOf ign base es) k = some v) :
    v = SNode.file ∧ (k, FSTree.file) ∈ es ∧ ign (base ++ [k]) = false := by
  induction es with
  | nil => simp [fileEntriesOf, findS] at h
  | cons e rest ih =>
    obtain ⟨n, t⟩ := e
    cases t with
    | dir es2 =>
      rw [show fileEntriesOf ign base ((n, FSTree.dir es2) :: rest) =
          fileEntriesOf ign base rest from by simp [fileEntriesOf]] at h
      obtain ⟨h1, h2, h3⟩ := ih h
      exact ⟨h1, List.mem_cons_of_mem _ h2, h3⟩
    | file =>
      by_cases hig : ign (base ++ [n]) = true
      · rw [show fileEntriesOf ign base ((n, FSTree.file) :: rest) =
            fileEntriesOf ign base rest from by simp [fileEntriesOf, hig]] at h
        obtain ⟨h1, h2, h3⟩ := ih h
        exact ⟨h1, List.mem_cons_of_mem _ h2, h3⟩
      · have hig' : ign (base ++ [n]) = false := by simpa using hig
        rw [show fileEntriesOf ign base ((n, FSTree.file) :: rest) =
            (n, SNode.file) :: fileEntriesOf ign base rest from by
            simp [fileEntriesOf, hig']] at h
        by_cases hk : n = k
        · subst hk
          simp only [findS, if_pos rfl] at h
          obtain rfl : SNode.file = v := Option.some.inj h
          exact ⟨rfl, List.mem_cons_self _ _, hig'⟩
        · simp only [findS, if_neg hk] at h
          obtain ⟨h1, h2, h3⟩ := ih h
          exact ⟨h1, List.mem_cons_of_mem _ h2, h3⟩

/-- A hit among the directory entries of a visited directory comes from a
non-ignored, non-`.git` subdirectory of its listing and holds that
subdirectory's built structure. -/
theorem findS_dirEntries (ign : List String → Bool) (base : List String)
    (l : List (String × FSTree)) (k : String) (v : SNode)
    (h : findS (dirEntriesOf ign base l) k = some v) :
    ∃ es2, (k, FSTree.dir es2) ∈ l ∧
      v = SNode.dir (buildTree ign (base ++ [k]) (FSTree.dir es2)) ∧
      ign (base ++ [k]) = false ∧ ".git" ∉ base ++ [k] := by
  induction l with
  | nil => simp [dirEntriesOf, findS] at h
  | cons e rest ih =>
    obtain ⟨n, t⟩ := e
    cases t with
    | file =>
      rw [show dirEntriesOf ign base ((n, FSTree.file) :: rest) =
          dirEntriesOf ign base rest from by simp [dirEntriesOf]] at h
      obtain ⟨es2, hm, hv, hig, hg⟩ := ih h
      exact ⟨es2, List.mem_cons_of_mem _ hm, hv, hig, hg⟩
    | dir es2 =>
      by_cases hig : ign (base ++ [n]) = true
      · rw [show dirEntriesOf ign base ((n, FSTree.dir es2) :: rest) =
            dirEntriesOf ign base rest from by simp [dirEntriesOf, hig]] at h
        obtain ⟨es3, hm, hv, hig3, hg3⟩ := ih h
        exact ⟨es3, List.mem_cons_of_mem _ hm, hv, hig3, hg3⟩
      · have hig' : ign (base ++ [n]) = false := by simpa using hig
        by_cases hgit : ".git" ∈ base ++ [n]
        · rw [show dirEntriesOf ign base ((n, FSTree.dir es2) :: rest) =
              dirEntriesOf ign base rest from by
              simp [dirEntriesOf, hig', hgit]] at h
          obtain ⟨es3, hm, hv, hig3, hg3⟩ := ih h
          exact ⟨es3, List.mem_cons_of_mem _ hm, hv, hig3, hg3⟩
        · rw [show dirEntriesOf ign base ((n, FSTree.dir es2) :: rest) =
              (n, SNode.dir (buildTree ign (base ++ [n]) (FSTree.dir es2))) ::
                dirEntriesOf ign base rest from by
              simp [dirEntriesOf, hig', hgit]] at h
          by_cases hk : n = k
          · subst hk
            simp only [findS, if_pos rfl] at h
            exact ⟨es2, List.mem_cons_self _ _, (Option.some.inj h).symm,
              hig', hgit⟩
          · simp only [findS, if_neg hk] at h
            obtain ⟨es3, hm, hv, hig3, hg3⟩ := ih h
            exact ⟨es3, List.mem_cons_of_mem _ hm, hv, hig3, hg3⟩

/-- With distinct entry names, membership determines the lookup result. -/
theorem findF_of_mem_nodup (es : List (String × FSTree)) (k : String)
    (x : FSTree) (hnd : nodupKeys es = true) (hm : (k, x) ∈ es) :
    findF es k = some x := by
  induction es with
  | nil => simp at hm
  | cons e rest ih =>
    obtain ⟨n, y⟩ := e
    simp only [nodupKeys, Bool.and_eq_true] at hnd
    obtain ⟨hnone, hnd'⟩ := hnd
    rcases List.mem_cons.mp hm with heq | hmem
    · rw [Prod.mk.injEq] at heq
      obtain ⟨h1, h2⟩ := heq
      subst h1
      simp [findF, h2]
    · have hne : n ≠ k := by
        intro hnk
        subst hnk
        have : rest.any (fun e => e.1 == n) = true :=
          List.any_eq_true.mpr ⟨(n, x), hmem, by simp⟩
        simp [this] at hnone
      simp [findF, hne, ih hnd' hmem]

/-- Subtrees of a well-formed listing are well-formed. -/
theorem wfL_of_mem (es : List (String × FSTree)) (k : String) (t : FSTree)
    (hwf : wfL es = true) (hm : (k, t) ∈ es) : wfT t = true := by
  induction es with
  | nil => simp at hm
  | cons e rest ih =>
    obtain ⟨n, y⟩ := e
    simp only [wfL, Bool.and_eq_true] at hwf
    rcases List.mem_cons.mp hm with heq | hmem
    · rw [Prod.mk.injEq] at heq
      exact heq.2 ▸ hwf.1
    · exact ih hwf.2 hmem

/-- A listed subtree is smaller than the listing. -/
theorem sizeOf_lt_of_mem_snd (es : List (String × FSTree)) (k : String)
    (t : FSTree) (hm : (k, t) ∈ es) : sizeOf t < sizeOf es := by
  induction es with
  | nil => simp at hm
  | cons e rest ih =>
    rcases List.mem_cons.mp hm with heq | hmem
    · rw [← heq]
      simp only [List.cons.sizeOf_spec, Prod.mk.sizeOf_spec]
      omega
    · have := ih hmem
      simp only [List.cons.sizeOf_spec]
      omega

/-- Soundness of the structure builder, by induction on the size of the
listing: every file leaf of the built structure names a regular file of
the listing whose path is not ignored and whose directory components
avoid `.git`. -/
theorem buildTree_sound_aux (ign : List String → Bool) :
    ∀ (fuel : Nat) (es : List (String × FSTree)) (base p : List String),
      sizeOf es ≤ fuel →
      nodupKeys es = true → wfL es = true →
      isFileAtS (buildTree ign base (FSTree.dir es)) p = true →
      isFileAtF es p = true ∧ ign (base ++ p) = false ∧
        ".git" ∉ p.dropLast := by
  intro fuel
  induction fuel with
  | zero =>
    intro es base p hsz _ _ _
    exfalso
    have hpos : 0 < sizeOf es := by
      cases es with
      | nil => simp only [List.nil.sizeOf_spec]; omega
      | cons e rest => simp only [List.cons.sizeOf_spec]; omega
    omega
  | succ m ih =>
    intro es base p hsz hnd hwf hfile
    rw [show buildTree ign base (FSTree.dir es) =
        if ".git" ∈ base then []
        else fileEntriesOf ign base es ++ dirEntriesOf ign base es from by
        simp [buildTree]] at hfile
    by_cases hgit : ".git" ∈ base
    · rw [if_pos hgit, isFileAtS_nil] at hfile
      simp at hfile
    · rw [if_neg hgit] at hfile
      cases p with
      | nil => simp [isFileAtS] at hfile
      | cons k rest =>
        cases rest with
        | nil =>
          cases hF : findS (fileEntriesOf ign base es ++ dirEntriesOf ign base es) k with
          | none => simp [isFileAtS, hF] at hfile
          | some v =>
            cases v with
            | dir es2 => simp [isFileAtS, hF] at hfile
            | file =>
              rw [findS_append] at hF
              cases hFf : findS (fileEntriesOf ign base es) k with
              | some v1 =>
                rw [hFf] at hF
                obtain rfl : v1 = SNode.file := Option.some.inj hF
                obtain ⟨_, hmem, hig⟩ :=
                  findS_fileEntries ign base es k SNode.file hFf
                refine ⟨?_, hig, by simp⟩
                have hfind := findF_of_mem_nodup es k FSTree.file hnd hmem
                simp [isFileAtF, hfind]
              | none =>
                rw [hFf] at hF
                obtain ⟨es2, _, hv, _, _⟩ :=
                  findS_dirEntries ign base es k SNode.file hF
                exact absurd hv (by simp)
        | cons k2 rest2 =>
          cases hF : findS (fileEntriesOf ign base es ++ dirEntriesOf ign base es) k with
          | none => simp [isFileAtS, hF] at hfile
          | some v =>
            cases v with
            | file => simp [isFileAtS, hF] at hfile
            | dir inner =>
              have hfile2 : isFileAtS inner (k2 :: rest2) = true := by
                simpa [isFileAtS, hF] using hfile
              rw [findS_append] at hF
              cases hFf : findS (fileEntriesOf ign base es) k with
              | some v1 =>
                rw [hFf] at hF
                obtain rfl : v1 = SNode.dir inner := Option.some.inj hF
                obtain ⟨hv, _, _⟩ :=
                  findS_fileEntries ign base es k (SNode.dir inner) hFf
                exact absurd hv (by simp)
              | none =>
                rw [hFf] at hF
                obtain ⟨es2, hm, hv, hig, hg⟩ :=
                  findS_dirEntries ign base es k (SNode.dir inner) hF
                have hinner : inner =
                    buildTree ign (base ++ [k]) (FSTree.dir es2) := by
                  injection hv
                have hsz2 : sizeOf es2 ≤ m := by
                  have h1 := sizeOf_lt_of_mem_snd es k (FSTree.dir es2) hm
                  have h2 : sizeOf (FSTree.dir es2) = 1 + sizeOf es2 := by
                    simp [FSTree.dir.sizeOf_spec]
                  omega
                have hwfT2 : wfT (FSTree.dir es2) = true :=
                  wfL_of_mem es k _ hwf hm
                simp only [wfT, Bool.and_eq_true] at hwfT2
                have hfile3 : isFileAtS
                    (buildTree ign (base ++ [k]) (FSTree.dir es2))
                    (k2 :: rest2) = true := hinner ▸ hfile2
                obtain ⟨ih1, ih2, ih3⟩ :=
                  ih es2 (base ++ [k]) (k2 :: rest2) hsz2 hwfT2.1 hwfT2.2 hfile3
                refine ⟨?_, ?_, ?_⟩
                · have hfind := findF_of_mem_nodup es k (FSTree.dir es2) hnd hm
                  simp [isFileAtF, hfind, ih1]
                · have heq : base ++ k :: k2 :: rest2 =
                      (base ++ [k]) ++ (k2 :: rest2) := by simp
                  rw [heq]
                  exact ih2
                · have hkne : ".git" ≠ k := by
                    intro hkeq
                    exact hg (List.mem_append_right _ (by simp [hkeq]))
                  intro hmem
                  rw [List.dropLast_cons₂] at hmem
                  rcases List.mem_cons.mp hmem with h | h
                  · exact hkne h
                  · exact ih3 h

/-- Claim C3 counterexample: with a submodule-style regular file named `.git`
under directory `sub` and an empty ignore predicate, the built structure
contains the file entry `sub/.git` — a path with a `.git` component —
contradicting the claim that no entry's path contains a `.git`
component. -/
theorem git_named_file_included_cex :
    isFileAtS (get_repo_structure (fun _ => false) ["repo"] gitFileTree)
      ["sub", ".git"] = true ∧
    ".git" ∈ (["sub", ".git"] : List String) := by
  constructor
  · decide
  · decide

/-- Claim C3 amended: over a well-formed listing, every file entry of the built
structure corresponds to a regular file on disk at the same relative
path, the ignore predicate is false on that file's absolute path, and no
DIRECTORY component of the path is `.git` (the Git metadata directory is
never descended into and contributes no entries); a regular file named
`.git` itself is, however, not excluded. -/
theorem structure_entries_sound (ign : List String → Bool)
    (repoComps : List String) (root : List (String × FSTree))
    (p : List String)
    (hwf : wfT (FSTree.dir root) = true)
    (hfile : isFileAtS (get_repo_structure ign repoComps root) p = true) :
    isFileAtF root p = true ∧ ign (repoComps ++ p) = false ∧
      ".git" ∉ p.dropLast := by
  simp only [wfT, Bool.and_eq_true] at hwf
  exact buildTree_sound_aux ign (sizeOf root) root repoComps p le_rfl
    hwf.1 hwf.2 hfile

/-- Witness for C3 amended: the listing with `src/a.py` and a `.git`
directory; the entry `src/a.py` of the built structure is a real,
non-ignored file with no `.git` directory component. -/
theorem structure_entries_sound_witness :
    (wfT (FSTree.dir plainTree) = true ∧
      isFileAtS (get_repo_structure (fun _ => false) ["repo"] plainTree)
        ["src", "a.py"] = true) ∧
    (isFileAtF plainTree ["src", "a.py"] = true ∧
      (fun _ => false : List String → Bool) (["repo"] ++ ["src", "a.py"]) = false ∧
      ".git" ∉ (["src", "a.py"] : List String).dropLast) :=
  ⟨⟨by decide, by decide⟩,
    structure_entries_sound (fun _ => false) ["repo"] plainTree
      ["src", "a.py"] (by decide) (by decide)⟩
